import Mathlib

/-!
Shallow embedding of pkg/apk/index.go from the go-apk repository: the
repository-index cache (indexCache.get), the orchestration loop
(GetRepositoryIndexes) and the signature-verification step of
getRepositoryIndex.  External collaborators (the RSA primitive, the
gzip/tar reader, the filesystem and the HTTP client) are abstracted as
parameters; everything the shown source decides is translated directly.
-/

namespace ApkIndex

/-- Models strings.HasPrefix from the Go standard library. -/
def strStartsWith (s p : String) : Bool :=
  p.toList.isPrefixOf s.toList

/-- Helper for fields: splits a character list on whitespace, keeping the
current token in reverse.  Together with fields this models strings.Fields. -/
def fieldsAux : List Char → List Char → List String
  | [], cur => if cur.isEmpty then [] else [String.mk cur.reverse]
  | c :: cs, cur =>
    if c.isWhitespace then
      if cur.isEmpty then fieldsAux cs []
      else String.mk cur.reverse :: fieldsAux cs []
    else fieldsAux cs (c :: cur)

/-- Models strings.Fields: split around runs of whitespace, producing no
empty tokens. -/
def fields (s : String) : List String :=
  fieldsAux s.toList []

/-- Association-list lookup, modelling a Go map read m[k]. -/
def alistLookup {α : Type} : List (String × α) → String → Option α
  | [], _ => none
  | (k, v) :: rest, key => if k = key then some v else alistLookup rest key

/-- Association-list write, modelling a Go map store m[k] = v. -/
def alistStore {α : Type} : List (String × α) → String → α → List (String × α)
  | [], key, val => [(key, val)]
  | (k, v) :: rest, key, val =>
    if k = key then (key, val) :: rest else (k, v) :: alistStore rest key val

/-- The two trust errors of the verification step in getRepositoryIndex
(index.go lines 279 and 298). -/
inductive VerifyError where
  | noKeysProvided
  | noKeyFound (keyName : String)
deriving DecidableEq

/-- First, named-key verification attempt of the source (index.go lines
282-288), computing the value of the flag verified after
  var verified bool
  keyData, ok := keys[matches[1]]
  if ok { if err := RSAVerifySHA1Digest(...); err != nil { verified = false } }
has run.  Note that the source never assigns true here, so the flag stays
false even when the named key verifies successfully. -/
def namedKeyAttempt (verifies : List UInt8 → Bool)
    (ks : List (String × List UInt8)) (keyName : String) : Bool :=
  match alistLookup ks keyName with
  | some keyData => if verifies keyData then false else false
  | none => false

/-- Key-matching part of the signature check in getRepositoryIndex
(index.go lines 279-299).  The trust-key map is Option-valued: none models
a nil Go map, some ks models a (possibly empty) non-nil map whose
iteration order is the list order.  The external primitive
sign.RSAVerifySHA1Digest is abstracted as the oracle verifies, applied to
the key bytes (the digest and the signature are fixed in the enclosing
scope of the source).  keyName is matches[1], the key name extracted from
the signature file name. -/
def verifySignature (verifies : List UInt8 → Bool)
    (keys : Option (List (String × List UInt8))) (keyName : String) :
    Except VerifyError Unit :=
  match keys with
  | none => .error .noKeysProvided
  | some ks =>
    let verified1 : Bool := namedKeyAttempt verifies ks keyName
    -- if !verified { for _, keyData := range keys {
    --   if err := RSAVerifySHA1Digest(...); err == nil { verified = true; break } } }
    let verified2 : Bool :=
      if verified1 then verified1 else ks.any fun p => verifies p.2
    -- if !verified { return nil, fmt.Errorf("no key found ...") }
    if verified2 then .ok () else .error (.noKeyFound keyName)

/-- The first verification attempt never sets the flag. -/
theorem namedKeyAttempt_eq_false (verifies : List UInt8 → Bool)
    (ks : List (String × List UInt8)) (keyName : String) :
    namedKeyAttempt verifies ks keyName = false := by
  unfold namedKeyAttempt
  split
  · simp
  · rfl

/-- On a non-nil key map the whole key-matching step succeeds exactly when
some key in the map verifies the signature: the first (named-key) attempt
never sets the flag, so the exhaustive loop always decides the outcome. -/
theorem verifySignature_some_eq (verifies : List UInt8 → Bool)
    (ks : List (String × List UInt8)) (keyName : String) :
    verifySignature verifies (some ks) keyName =
      (if ks.any (fun p => verifies p.2) then .ok ()
       else .error (.noKeyFound keyName)) := by
  show (let verified1 : Bool := namedKeyAttempt verifies ks keyName;
        let verified2 : Bool :=
          if verified1 then verified1 else ks.any fun p => verifies p.2;
        if verified2 then (Except.ok () : Except VerifyError Unit)
        else Except.error (VerifyError.noKeyFound keyName)) =
      (if ks.any (fun p => verifies p.2) then Except.ok ()
       else Except.error (VerifyError.noKeyFound keyName))
  rw [namedKeyAttempt_eq_false]
  simp

/-- C1 counterexample: with an empty but non-nil trust-key map the code
returns the noKeyFound error, not the noKeysProvided error that the claim
asserts for a zero-entry map; the two errors are distinct. -/
theorem c1_counterexample :
    verifySignature (fun _ => false) (some []) "k.rsa.pub" =
        .error (.noKeyFound "k.rsa.pub") ∧
      VerifyError.noKeyFound "k.rsa.pub" ≠ VerifyError.noKeysProvided := by
  constructor
  · rfl
  · decide

/-- C1 (amended): the hard noKeysProvided error occurs exactly when the
trust-key map is nil (absent); an empty but non-nil (zero-entry) map
instead fails with the noKeyFound error, the same error used when keys
exist but none validates. -/
theorem c1_no_keys_error :
    (∀ (verifies : List UInt8 → Bool) (keyName : String),
        verifySignature verifies none keyName = .error .noKeysProvided) ∧
    (∀ (verifies : List UInt8 → Bool) (keyName : String),
        verifySignature verifies (some []) keyName =
          .error (.noKeyFound keyName)) := by
  constructor
  · intro v n
    rfl
  · intro v n
    rw [verifySignature_some_eq]
    rfl

/-- C4: if some key K stored under identifier kid in the non-nil trust
set verifies the signature, the check succeeds, whether or not kid (or any
key of the set) matches the key name extracted from the signature file
name: the exhaustive fallback loop tries every key. -/
theorem c4_fallback_success (verifies : List UInt8 → Bool)
    (ks : List (String × List UInt8)) (keyName kid : String) (K : List UInt8)
    (hmem : (kid, K) ∈ ks) (hK : verifies K = true) :
    verifySignature verifies (some ks) keyName = .ok () := by
  rw [verifySignature_some_eq]
  have hany : ks.any (fun p => verifies p.2) = true :=
    List.any_eq_true.mpr ⟨(kid, K), hmem, hK⟩
  simp [hany]

/-- C4 witness: the only trust key is stored under the identifier other,
while the signature record names expected.rsa.pub (absent from the set);
verification still succeeds. -/
theorem c4_fallback_success_witness :
    verifySignature (fun k => k == [1]) (some [("other", [1])])
      "expected.rsa.pub" = .ok () :=
  c4_fallback_success (fun k => k == [1]) [("other", [1])] "expected.rsa.pub"
    "other" [1] (by simp) (by decide)

/-- Opaque parsed index, produced by the external decoder collaborator
IndexFromArchive.  Modelled from the spec: ParsedIndex is an opaque,
immutable structured representation; we wrap a number as its identity. -/
structure APKIndex where
  id : Nat
deriving DecidableEq

/-- Errors propagated by GetRepositoryIndexes: the parse error of
index.go line 139 and opaque hard errors coming out of the cache. -/
inductive IndexError where
  | invalidRepositoryLine (line : String)
  | hardError (msg : String)
deriving DecidableEq

/-- Modelled from the spec: the fixed, globally known index filename
literal (declared outside the shown source file). -/
def indexFilename : String := "APKINDEX.tar.gz"

/-- IndexURL from index.go lines 112-114: full URL of the index file for
the given repo and arch. -/
def IndexURL (repo arch : String) : String :=
  repo ++ "/" ++ arch ++ "/" ++ indexFilename

/-- Modelled from the spec: NamedIndex carries the pin name (empty if
unpinned) and the repository base identifier together with the parsed
index; the constructor NewNamedRepositoryWithIndex and the Repository
record live outside the shown source file. -/
structure NamedIndex where
  name : String
  uri : String
  index : APKIndex
deriving DecidableEq

/-- Builds the NamedIndex appended at index.go lines 158-159: repoBase is
repoURL/arch and the pin name is carried through. -/
def mkNamedIndex (repoName repoURL arch : String) (index : APKIndex) :
    NamedIndex :=
  { name := repoName, uri := repoURL ++ "/" ++ arch, index := index }

/-- Pin handling at the top of the loop body of GetRepositoryIndexes
(index.go lines 129-143): repoName is empty and repoURL is the whole spec
unless the spec starts with the pin marker, in which case it is split on
whitespace; fewer than two tokens is the parse error of line 139, and
otherwise the name is parts[0] without its leading one-byte marker and
the URL is parts[1]. -/
def parseRepoLine (repo : String) : Except IndexError (String × String) :=
  if strStartsWith repo "@" then
    match fields repo with
    | p0 :: p1 :: _ => .ok (p0.drop 1, p1)
    | _ => .error (.invalidRepositoryLine repo)
  else
    .ok ("", repo)

/-- Loop of GetRepositoryIndexes (index.go lines 120-162), with the
process-global cache access globalIndexCache.get abstracted as the oracle
fetch from the derived index URL to the (index, error) pair it returns;
keys, arch and opts are fixed for the call.  The Go for-loop with early
return is rendered as structural recursion on the spec list, preserving
the input order of the appends. -/
def GetRepositoryIndexes
    (fetch : String → Option APKIndex × Option IndexError) (arch : String) :
    List String → Except IndexError (List NamedIndex)
  | [] => .ok []
  | repo :: rest =>
    match parseRepoLine repo with
    | .error e => .error e
    | .ok (repoName, repoURL) =>
      match fetch (IndexURL repoURL arch) with
      | (_, some e) => .error e
      | (none, none) => GetRepositoryIndexes fetch arch rest
      | (some index, none) =>
        match GetRepositoryIndexes fetch arch rest with
        | .error e => .error e
        | .ok l => .ok (mkNamedIndex repoName repoURL arch index :: l)

/-- Outcome of processing a single repository spec: a parse or fetch
error, a silent skip (ok none) or a named index (ok some). -/
def specOutcome
    (fetch : String → Option APKIndex × Option IndexError) (arch : String)
    (repo : String) : Except IndexError (Option NamedIndex) :=
  match parseRepoLine repo with
  | .error e => .error e
  | .ok (repoName, repoURL) =>
    match fetch (IndexURL repoURL arch) with
    | (_, some e) => .error e
    | (none, none) => .ok none
    | (some index, none) => .ok (some (mkNamedIndex repoName repoURL arch index))

/-- The named index contributed by a spec, none when it is skipped. -/
def specNamed
    (fetch : String → Option APKIndex × Option IndexError) (arch : String)
    (repo : String) : Option NamedIndex :=
  match specOutcome fetch arch repo with
  | .ok o => o
  | .error _ => none

/-- True when processing the spec produces no hard error. -/
def specIsOk
    (fetch : String → Option APKIndex × Option IndexError) (arch : String)
    (repo : String) : Bool :=
  match specOutcome fetch arch repo with
  | .ok _ => true
  | .error _ => false

/-- Fetch oracle that errors for the index URL of the repo bad and
returns the parsed index 1 for every other URL. -/
def fetchMixed : String → Option APKIndex × Option IndexError :=
  fun u =>
    if u = IndexURL "bad" "x86_64" then (none, some (.hardError "boom"))
    else (some ⟨1⟩, none)

/-- Fetch oracle that always returns the parsed index 1 with no error. -/
def fetchSome : String → Option APKIndex × Option IndexError :=
  fun _ => (some ⟨1⟩, none)

/-- One step of the orchestrator loop expressed through the per-spec
outcome: the head spec either errors the whole call, is skipped, or
prepends its named index to the outcome of the remaining specs. -/
theorem GetRepositoryIndexes_cons
    (fetch : String → Option APKIndex × Option IndexError) (arch : String)
    (repo : String) (rest : List String) :
    GetRepositoryIndexes fetch arch (repo :: rest) =
      (match specOutcome fetch arch repo with
       | .error e => .error e
       | .ok none => GetRepositoryIndexes fetch arch rest
       | .ok (some ni) =>
         match GetRepositoryIndexes fetch arch rest with
         | .error e => .error e
         | .ok l => .ok (ni :: l)) := by
  cases hp : parseRepoLine repo with
  | error e => simp [GetRepositoryIndexes, specOutcome, hp]
  | ok nu =>
    obtain ⟨n, u⟩ := nu
    cases hf : fetch (IndexURL u arch) with
    | mk fst snd =>
      cases snd with
      | some e =>
        cases fst <;> simp [GetRepositoryIndexes, specOutcome, hp, hf]
      | none =>
        cases fst <;> simp [GetRepositoryIndexes, specOutcome, hp, hf]

/-- C6: a spec whose cache lookup yields (nil, nil) is skipped silently
and contributes nothing; the first spec yielding an error - after any
prefix of specs that succeed or are skipped, anywhere in the list -
aborts the whole call with exactly that error and no partial list; on
overall success the returned list is the input-ordered filterMap of the
per-spec named indexes, each built with its pin name; an unpinned spec
parses to the empty pin name. -/
theorem c6_orchestrator
    (fetch : String → Option APKIndex × Option IndexError) (arch : String) :
    (∀ repo rest repoName repoURL,
        parseRepoLine repo = .ok (repoName, repoURL) →
        fetch (IndexURL repoURL arch) = (none, none) →
        GetRepositoryIndexes fetch arch (repo :: rest) =
          GetRepositoryIndexes fetch arch rest) ∧
    (∀ pre bad rest e,
        (∀ repo ∈ pre, specIsOk fetch arch repo = true) →
        specOutcome fetch arch bad = .error e →
        GetRepositoryIndexes fetch arch (pre ++ bad :: rest) = .error e) ∧
    (∀ repos, (∀ repo ∈ repos, specIsOk fetch arch repo = true) →
        GetRepositoryIndexes fetch arch repos =
          .ok (repos.filterMap (specNamed fetch arch))) ∧
    (∀ repo, strStartsWith repo "@" = false →
        parseRepoLine repo = .ok ("", repo)) := by
  refine ⟨?_, ?_, ?_, ?_⟩
  · intro repo rest repoName repoURL hp hf
    simp [GetRepositoryIndexes, hp, hf]
  · intro pre
    induction pre with
    | nil =>
      intro bad rest e hpre hbad
      rw [List.nil_append, GetRepositoryIndexes_cons, hbad]
    | cons p ps ih =>
      intro bad rest e hpre hbad
      have hp := hpre p (List.mem_cons_self p ps)
      have hps : ∀ repo ∈ ps, specIsOk fetch arch repo = true :=
        fun repo hm => hpre repo (List.mem_cons_of_mem p hm)
      have hrest := ih bad rest e hps hbad
      rw [List.cons_append, GetRepositoryIndexes_cons]
      cases ho : specOutcome fetch arch p with
      | error e2 => simp [specIsOk, ho] at hp
      | ok o =>
        cases o with
        | none => simpa [ho] using hrest
        | some ni => simp [ho, hrest]
  · intro repos
    induction repos with
    | nil => intro h; rfl
    | cons r rs ih =>
      intro h
      have hr := h r (List.mem_cons_self r rs)
      have hrest : ∀ repo ∈ rs, specIsOk fetch arch repo = true :=
        fun repo hm => h repo (List.mem_cons_of_mem r hm)
      have ihr := ih hrest
      cases hp : parseRepoLine r with
      | error e => simp [specIsOk, specOutcome, hp] at hr
      | ok nu =>
        obtain ⟨n, u⟩ := nu
        cases hfe : fetch (IndexURL u arch) with
        | mk fst snd =>
          cases snd with
          | some e => simp [specIsOk, specOutcome, hp, hfe] at hr
          | none =>
            cases fst with
            | none =>
              simp [GetRepositoryIndexes, hp, hfe, ihr,
                specNamed, specOutcome]
            | some index =>
              simp [GetRepositoryIndexes, hp, hfe, ihr,
                specNamed, specOutcome]
  · intro repo h
    simp [parseRepoLine, h]

/-- C6 witness: a successfully resolved spec followed by an erroring one
aborts the whole call with that error and no partial list. -/
theorem c6_orchestrator_witness :
    GetRepositoryIndexes fetchMixed "x86_64" ["good", "bad", "tail"] =
      .error (.hardError "boom") :=
  (c6_orchestrator fetchMixed "x86_64").2.1 ["good"] "bad" ["tail"]
    (.hardError "boom") (by decide) rfl

/-- C7: a spec that starts with the pin marker but splits into fewer than
two whitespace tokens makes GetRepositoryIndexes fail with the parse
error naming the line, for every fetch oracle, so no cache, filesystem or
network access for that spec can influence the outcome. -/
theorem c7_malformed_pin (repo : String)
    (h1 : strStartsWith repo "@" = true) (h2 : (fields repo).length < 2) :
    ∀ (fetch : String → Option APKIndex × Option IndexError) (arch : String)
      (rest : List String),
      GetRepositoryIndexes fetch arch (repo :: rest) =
        .error (.invalidRepositoryLine repo) := by
  intro fetch arch rest
  have hp : parseRepoLine repo = .error (.invalidRepositoryLine repo) := by
    unfold parseRepoLine
    rw [h1]
    cases hf : fields repo with
    | nil => simp
    | cons p0 t =>
      cases t with
      | nil => simp
      | cons p1 t2 =>
        rw [hf] at h2
        simp at h2
        omega
  simp [GetRepositoryIndexes, hp]

/-- C7 witness: the spec with a pin marker and no URL token fails with
the parse error, under an oracle that would otherwise succeed. -/
theorem c7_malformed_pin_witness :
    GetRepositoryIndexes fetchSome "x86_64" ["@corp"] =
      .error (.invalidRepositoryLine "@corp") :=
  c7_malformed_pin "@corp" (by decide) (by decide) fetchSome "x86_64" []

/-- C10: a pinned spec with three or more whitespace tokens is accepted:
the pin name is the first token without its leading marker, the URL is
the second token, the remaining tokens are ignored, and the orchestrator
consumes the spec without a parse error. -/
theorem c10_extra_tokens (repo p0 p1 : String) (rest : List String)
    (h1 : strStartsWith repo "@" = true)
    (h2 : fields repo = p0 :: p1 :: rest) :
    parseRepoLine repo = .ok (p0.drop 1, p1) ∧
    ∀ (fetch : String → Option APKIndex × Option IndexError) (arch : String)
      (index : APKIndex),
      fetch (IndexURL p1 arch) = (some index, none) →
      GetRepositoryIndexes fetch arch [repo] =
        .ok [mkNamedIndex (p0.drop 1) p1 arch index] := by
  have hp : parseRepoLine repo = .ok (p0.drop 1, p1) := by
    unfold parseRepoLine
    rw [h1, h2]
    simp
  refine ⟨hp, ?_⟩
  intro fetch arch index hf
  simp [GetRepositoryIndexes, hp, hf]

/-- C10 witness: a pinned spec with a third token parses to the pin name
corp and the URL of the second token, and resolves to that named index. -/
theorem c10_extra_tokens_witness :
    GetRepositoryIndexes fetchSome "x86_64" ["@corp https://r extra"] =
      .ok [mkNamedIndex "corp" "https://r" "x86_64" ⟨1⟩] :=
  (c10_extra_tokens "@corp https://r extra" "@corp" "https://r" ["extra"]
    (by decide) (by decide)).2 fetchSome "x86_64" ⟨1⟩ rfl

/-- Reasons a stat of a local path can fail; os.Stat in the source is
abstracted, and index.go line 85 treats every failure alike. -/
inductive StatError where
  | notExist
  | permissionDenied
  | other (msg : String)
deriving DecidableEq

/-- The (idx, err) pair stored in indexCache.indexes (index.go lines
51-54). -/
structure indexResult where
  idx : Option APKIndex
  err : Option IndexError
deriving DecidableEq

/-- State of the process-global indexCache (index.go lines 56-66):
onceDone records the URLs whose sync.Once already ran, modtimes the
recorded modification times of local paths, indexes the stored results.
Modification times are abstracted as naturals ordered like time.After. -/
structure indexCacheState where
  onceDone : List String
  modtimes : List (String × Nat)
  indexes : List (String × indexResult)
deriving DecidableEq

/-- List membership test with decidable String equality, modelling the
sync.Once-done check of the sequential embedding. -/
def containsStr : List String → String → Bool
  | [], _ => false
  | x :: rest, u => if x = u then true else containsStr rest u

/-- Result of one indexCache.get call: either the returned (idx, err)
pair, or the fatal assertion of index.go line 104. -/
inductive getOutcome where
  | ret (idx : Option APKIndex) (err : Option IndexError)
  | panicked
deriving DecidableEq

/-- Final load of index.go lines 102-108: the entry must exist, else the
call dies on the fatal assertion. -/
def finalLookup (st : indexCacheState) (u : String) :
    getOutcome × indexCacheState :=
  match alistLookup st.indexes u with
  | some result => (.ret result.idx result.err, st)
  | none => (.panicked, st)

/-- Sequential embedding of indexCache.get (index.go lines 68-109).  The
effectful collaborators are parameters: statRes is the outcome of
os.Stat(u) (its ModTime as a natural on success), compute the (idx, err)
pair that getRepositoryIndex would produce for u on this call.  For an
https URL the computation runs only if the once for u has not yet run,
and its result is stored; for a local path a failed stat returns
(nil, nil) at once, and otherwise the computation runs exactly when no
modtime is recorded for u or the fresh modtime is strictly later, storing
the result and the fresh modtime.  Either way the call ends with the
final cache load. -/
def indexCacheGet (st : indexCacheState) (u : String)
    (statRes : Except StatError Nat) (compute : indexResult) :
    getOutcome × indexCacheState :=
  if strStartsWith u "https://" then
    if containsStr st.onceDone u then
      finalLookup st u
    else
      finalLookup
        { st with
          indexes := alistStore st.indexes u compute,
          onceDone := u :: st.onceDone } u
  else
    match statRes with
    | .error _ => (.ret none none, st)
    | .ok mod =>
      match alistLookup st.modtimes u with
      | none =>
        finalLookup
          { st with
            indexes := alistStore st.indexes u compute,
            modtimes := alistStore st.modtimes u mod } u
      | some before =>
        if before < mod then
          finalLookup
            { st with
              indexes := alistStore st.indexes u compute,
              modtimes := alistStore st.modtimes u mod } u
        else
          finalLookup st u

/-- Storing under a key and then looking it up yields the stored value;
other keys are unaffected. -/
theorem alistLookup_alistStore {α : Type} (l : List (String × α))
    (key : String) (val : α) (u : String) :
    alistLookup (alistStore l key val) u =
      if key = u then some val else alistLookup l u := by
  induction l with
  | nil => simp [alistStore, alistLookup]
  | cons p rest ih =>
    obtain ⟨k, v⟩ := p
    by_cases hk : k = key
    · subst hk
      simp [alistStore, alistLookup]
      by_cases hu : k = u <;> simp [hu]
    · simp [alistStore, alistLookup, hk, ih]
      by_cases hu : k = u
      · subst hu
        have : ¬ key = k := fun h => hk h.symm
        simp [this, alistLookup]
      · simp [hu]

/-- Internal invariant of the cache: every URL whose once has run, and
every URL with a recorded modtime, has a stored indexes entry. -/
def cacheInv (st : indexCacheState) : Prop :=
  (∀ u, containsStr st.onceDone u = true →
      (alistLookup st.indexes u).isSome = true) ∧
  (∀ u t, alistLookup st.modtimes u = some t →
      (alistLookup st.indexes u).isSome = true)

/-- Remote branch, once already run: no computation, straight to the
final load. -/
theorem get_https_done (st : indexCacheState) (u : String)
    (statRes : Except StatError Nat) (compute : indexResult)
    (hh : strStartsWith u "https://" = true)
    (hc : containsStr st.onceDone u = true) :
    indexCacheGet st u statRes compute = finalLookup st u := by
  simp [indexCacheGet, hh, hc]

/-- Remote branch, first call: the computation result is stored and the
once is marked done. -/
theorem get_https_new (st : indexCacheState) (u : String)
    (statRes : Except StatError Nat) (compute : indexResult)
    (hh : strStartsWith u "https://" = true)
    (hc : containsStr st.onceDone u = false) :
    indexCacheGet st u statRes compute =
      finalLookup
        { st with
          indexes := alistStore st.indexes u compute,
          onceDone := u :: st.onceDone } u := by
  simp [indexCacheGet, hh, hc]

/-- Local branch, failed stat: immediate (nil, nil) with the state
untouched. -/
theorem get_local_statfail (st : indexCacheState) (u : String)
    (e : StatError) (compute : indexResult)
    (hh : strStartsWith u "https://" = false) :
    indexCacheGet st u (.error e) compute = (.ret none none, st) := by
  simp [indexCacheGet, hh]

/-- Local branch, no recorded modtime: compute, store result and
modtime. -/
theorem get_local_first (st : indexCacheState) (u : String) (mod : Nat)
    (compute : indexResult)
    (hh : strStartsWith u "https://" = false)
    (hm : alistLookup st.modtimes u = none) :
    indexCacheGet st u (.ok mod) compute =
      finalLookup
        { st with
          indexes := alistStore st.indexes u compute,
          modtimes := alistStore st.modtimes u mod } u := by
  simp [indexCacheGet, hh, hm]

/-- Local branch, file strictly newer than the recorded modtime:
recompute and store. -/
theorem get_local_newer (st : indexCacheState) (u : String)
    (mod before : Nat) (compute : indexResult)
    (hh : strStartsWith u "https://" = false)
    (hm : alistLookup st.modtimes u = some before) (hlt : before < mod) :
    indexCacheGet st u (.ok mod) compute =
      finalLookup
        { st with
          indexes := alistStore st.indexes u compute,
          modtimes := alistStore st.modtimes u mod } u := by
  simp [indexCacheGet, hh, hm, hlt]

/-- Local branch, file not newer: no recomputation, straight to the
final load. -/
theorem get_local_cached (st : indexCacheState) (u : String)
    (mod before : Nat) (compute : indexResult)
    (hh : strStartsWith u "https://" = false)
    (hm : alistLookup st.modtimes u = some before) (hge : ¬ before < mod) :
    indexCacheGet st u (.ok mod) compute = finalLookup st u := by
  simp [indexCacheGet, hh, hm, hge]

/-- A present entry makes the final load return it and keeps the state. -/
theorem finalLookup_found (st : indexCacheState) (u : String)
    (result : indexResult) (h : alistLookup st.indexes u = some result) :
    finalLookup st u = (.ret result.idx result.err, st) := by
  simp [finalLookup, h]

/-- C2: for an existing local path, the fetch-verify-decode computation
runs if and only if no modtime is recorded yet for the path or the fresh
modtime is strictly later than the recorded one, in which case its result
and the fresh modtime are stored; otherwise the call returns the stored
pair unchanged, independent of the computation. -/
theorem c2_local_revalidation (st : indexCacheState) (u : String)
    (mod : Nat) (compute : indexResult)
    (hlocal : strStartsWith u "https://" = false) :
    (alistLookup st.modtimes u = none →
        indexCacheGet st u (.ok mod) compute =
          (.ret compute.idx compute.err,
           { st with
             indexes := alistStore st.indexes u compute,
             modtimes := alistStore st.modtimes u mod })) ∧
    (∀ before, alistLookup st.modtimes u = some before → before < mod →
        indexCacheGet st u (.ok mod) compute =
          (.ret compute.idx compute.err,
           { st with
             indexes := alistStore st.indexes u compute,
             modtimes := alistStore st.modtimes u mod })) ∧
    (∀ before result, alistLookup st.modtimes u = some before →
        ¬ before < mod → alistLookup st.indexes u = some result →
        indexCacheGet st u (.ok mod) compute =
          (.ret result.idx result.err, st)) := by
  have hfound : alistLookup
      (alistStore st.indexes u compute) u = some compute := by
    rw [alistLookup_alistStore]
    simp
  refine ⟨?_, ?_, ?_⟩
  · intro hm
    rw [get_local_first st u mod compute hlocal hm]
    exact finalLookup_found _ u compute hfound
  · intro before hm hlt
    rw [get_local_newer st u mod before compute hlocal hm hlt]
    exact finalLookup_found _ u compute hfound
  · intro before result hm hge hidx
    rw [get_local_cached st u mod before compute hlocal hm hge]
    exact finalLookup_found st u result hidx

/-- C2 witness: with modtime 5 recorded for p and a stat reporting the
same modtime 5, the stored pair is returned and nothing changes. -/
theorem c2_local_revalidation_witness :
    indexCacheGet
      ⟨[], [("p", 5)], [("p", ⟨some ⟨1⟩, none⟩)]⟩ "p" (.ok 5)
      ⟨some ⟨2⟩, none⟩ =
      (.ret (some ⟨1⟩) none, ⟨[], [("p", 5)], [("p", ⟨some ⟨1⟩, none⟩)]⟩) :=
  (c2_local_revalidation ⟨[], [("p", 5)], [("p", ⟨some ⟨1⟩, none⟩)]⟩ "p" 5
    ⟨some ⟨2⟩, none⟩ (by decide)).2.2 5 ⟨some ⟨1⟩, none⟩ (by decide)
    (by decide) (by decide)

/-- C9: any stat failure of a local path, not only non-existence, makes
indexCacheGet return (nil, nil) at once with the cache untouched, and the
orchestrator silently skips a spec whose lookup yields (nil, nil). -/
theorem c9_stat_failure_soft_miss (st : indexCacheState) (u : String)
    (e : StatError) (compute : indexResult)
    (hlocal : strStartsWith u "https://" = false) :
    indexCacheGet st u (.error e) compute = (.ret none none, st) ∧
    (∀ (fetch : String → Option APKIndex × Option IndexError)
       (arch repo : String) (rest : List String) (repoName repoURL : String),
        parseRepoLine repo = .ok (repoName, repoURL) →
        fetch (IndexURL repoURL arch) = (none, none) →
        GetRepositoryIndexes fetch arch (repo :: rest) =
          GetRepositoryIndexes fetch arch rest) := by
  refine ⟨get_local_statfail st u e compute hlocal, ?_⟩
  intro fetch arch repo rest repoName repoURL hp hf
  simp [GetRepositoryIndexes, hp, hf]

/-- C9 witness: a permission-denied stat of a local path yields the soft
miss (nil, nil) and leaves the empty cache state empty. -/
theorem c9_stat_failure_soft_miss_witness :
    indexCacheGet ⟨[], [], []⟩ "p" (.error .permissionDenied)
      ⟨some ⟨1⟩, none⟩ = (.ret none none, ⟨[], [], []⟩) :=
  (c9_stat_failure_soft_miss ⟨[], [], []⟩ "p" .permissionDenied
    ⟨some ⟨1⟩, none⟩ (by decide)).1

/-- Storing an entry preserves presence of every entry. -/
theorem alistLookup_isSome_store {α : Type} (l : List (String × α))
    (key : String) (val : α) (u : String)
    (h : (alistLookup l u).isSome = true) :
    (alistLookup (alistStore l key val) u).isSome = true := by
  rw [alistLookup_alistStore]
  by_cases hk : key = u <;> simp [hk, h]

/-- The https store step preserves the cache invariant. -/
theorem cacheInv_store_https (st : indexCacheState) (u : String)
    (compute : indexResult) (hinv : cacheInv st) :
    cacheInv
      { st with
        indexes := alistStore st.indexes u compute,
        onceDone := u :: st.onceDone } := by
  constructor
  · intro u2 h2
    by_cases hu : u = u2
    · subst hu
      rw [alistLookup_alistStore]
      simp
    · have h3 : containsStr st.onceDone u2 = true := by
        rw [containsStr] at h2
        simpa [hu] using h2
      exact alistLookup_isSome_store _ u compute u2 (hinv.1 u2 h3)
  · intro u2 t h2
    exact alistLookup_isSome_store _ u compute u2 (hinv.2 u2 t h2)

/-- The local store step preserves the cache invariant. -/
theorem cacheInv_store_local (st : indexCacheState) (u : String)
    (mod : Nat) (compute : indexResult) (hinv : cacheInv st) :
    cacheInv
      { st with
        indexes := alistStore st.indexes u compute,
        modtimes := alistStore st.modtimes u mod } := by
  constructor
  · intro u2 h2
    exact alistLookup_isSome_store _ u compute u2 (hinv.1 u2 h2)
  · intro u2 t h2
    by_cases hu : u = u2
    · subst hu
      rw [alistLookup_alistStore]
      simp
    · rw [alistLookup_alistStore] at h2
      rw [if_neg hu] at h2
      exact alistLookup_isSome_store _ u compute u2 (hinv.2 u2 t h2)

/-- A present entry means the final load does not die. -/
theorem finalLookup_isSome (st : indexCacheState) (u : String)
    (h : (alistLookup st.indexes u).isSome = true) :
    (finalLookup st u).1 ≠ .panicked ∧ (finalLookup st u).2 = st := by
  cases hl : alistLookup st.indexes u with
  | none => rw [hl] at h; simp at h
  | some result => simp [finalLookup, hl]

/-- C8: from any state satisfying the cache invariant, indexCacheGet
never reaches the fatal missing-entry assertion, and it hands the
invariant on to the resulting state; the invariant holds of the initial
empty cache, so the assertion branch is unreachable in every execution. -/
theorem c8_no_fatal_assertion (st : indexCacheState) (u : String)
    (statRes : Except StatError Nat) (compute : indexResult)
    (hinv : cacheInv st) :
    (indexCacheGet st u statRes compute).1 ≠ .panicked ∧
    cacheInv (indexCacheGet st u statRes compute).2 := by
  have hfound : (alistLookup (alistStore st.indexes u compute) u).isSome
      = true := by
    rw [alistLookup_alistStore]
    simp
  by_cases hh : strStartsWith u "https://" = true
  · by_cases hc : containsStr st.onceDone u = true
    · rw [get_https_done st u statRes compute hh hc]
      obtain ⟨hne, heq⟩ := finalLookup_isSome st u (hinv.1 u hc)
      rw [heq]
      exact ⟨hne, hinv⟩
    · rw [get_https_new st u statRes compute hh (by simpa using hc)]
      obtain ⟨hne, heq⟩ := finalLookup_isSome
        { st with
          indexes := alistStore st.indexes u compute,
          onceDone := u :: st.onceDone } u hfound
      rw [heq]
      exact ⟨hne, cacheInv_store_https st u compute hinv⟩
  · have hh2 : strStartsWith u "https://" = false := by simpa using hh
    cases statRes with
    | error e =>
      rw [get_local_statfail st u e compute hh2]
      exact ⟨by simp, hinv⟩
    | ok mod =>
      cases hm : alistLookup st.modtimes u with
      | none =>
        rw [get_local_first st u mod compute hh2 hm]
        obtain ⟨hne, heq⟩ := finalLookup_isSome
          { st with
            indexes := alistStore st.indexes u compute,
            modtimes := alistStore st.modtimes u mod } u hfound
        rw [heq]
        exact ⟨hne, cacheInv_store_local st u mod compute hinv⟩
      | some before =>
        by_cases hlt : before < mod
        · rw [get_local_newer st u mod before compute hh2 hm hlt]
          obtain ⟨hne, heq⟩ := finalLookup_isSome
            { st with
              indexes := alistStore st.indexes u compute,
              modtimes := alistStore st.modtimes u mod } u hfound
          rw [heq]
          exact ⟨hne, cacheInv_store_local st u mod compute hinv⟩
        · rw [get_local_cached st u mod before compute hh2 hm hlt]
          obtain ⟨hne, heq⟩ := finalLookup_isSome st u (hinv.2 u before hm)
          rw [heq]
          exact ⟨hne, hinv⟩

/-- C8 witness: a first remote get on the empty cache, which satisfies
the invariant, does not die and keeps the invariant. -/
theorem c8_no_fatal_assertion_witness :
    (indexCacheGet ⟨[], [], []⟩ "https://r" (.ok 0) ⟨some ⟨1⟩, none⟩).1 ≠
        .panicked ∧
      cacheInv (indexCacheGet ⟨[], [], []⟩ "https://r" (.ok 0)
        ⟨some ⟨1⟩, none⟩).2 :=
  c8_no_fatal_assertion ⟨[], [], []⟩ "https://r" (.ok 0) ⟨some ⟨1⟩, none⟩
    ⟨fun u h => by simp [containsStr] at h,
     fun u t h => by simp [alistLookup] at h⟩

/-- Computation of the authenticated payload slice in getRepositoryIndex
(index.go lines 267-272): b is the raw container byte slice and
unreadBytes models buf.Len(), the number of raw bytes the gzip-backed
archive reader has not yet consumed once the record-1/record-2 boundary
has been passed; the payload indexData is b[readBytes:] for
readBytes := allBytes - unreadBytes. -/
def indexDataSlice (b : List UInt8) (unreadBytes : Nat) : List UInt8 :=
  let allBytes := b.length
  let readBytes := allBytes - unreadBytes
  b.drop readBytes

/-- C3 counterexample: for the three-byte container [10, 20, 30] with one
compressed byte consumed by the reader (so buf.Len() = 3 - 1 = 2), the
code takes the suffix starting at offset consumed = 1, namely [20, 30],
not the suffix starting at offset (total length minus consumed) = 2 that
the claim describes, namely [30]. -/
theorem c3_counterexample :
    indexDataSlice [10, 20, 30] (([10, 20, 30] : List UInt8).length - 1) ≠
      ([10, 20, 30] : List UInt8).drop
        (([10, 20, 30] : List UInt8).length - 1) := by
  decide

/-- C3 (amended): with consumed bytes never exceeding the container, the
authenticated payload equals the suffix of the raw container bytes
starting at offset consumed (the bytes consumed by the archive reader up
through the record-1/record-2 boundary), equivalently the suffix of
length (total container length minus consumed): the remaining
undecompressed bytes of the outer stream, not a re-serialization of
record 2. -/
theorem c3_payload_suffix (b : List UInt8) (consumed : Nat)
    (h : consumed ≤ b.length) :
    indexDataSlice b (b.length - consumed) = b.drop consumed ∧
    (indexDataSlice b (b.length - consumed)).length =
      b.length - consumed := by
  have hsub : b.length - (b.length - consumed) = consumed :=
    Nat.sub_sub_self h
  constructor
  · simp [indexDataSlice, hsub]
  · simp [indexDataSlice, hsub]

/-- C3 witness: the same concrete container, consumed = 1: the payload is
the last two bytes. -/
theorem c3_payload_suffix_witness :
    indexDataSlice [10, 20, 30] (([10, 20, 30] : List UInt8).length - 1) =
        ([10, 20, 30] : List UInt8).drop 1 ∧
      (indexDataSlice [10, 20, 30]
        (([10, 20, 30] : List UInt8).length - 1)).length =
        ([10, 20, 30] : List UInt8).length - 1 :=
  c3_payload_suffix [10, 20, 30] 1 (by decide)

end ApkIndex
